import Mathlib

/-!
# Verification of the Snapchat-export parser core (SnapchatParser_v2.2.py)

A shallow embedding of the ingestion, media-token, reaction-parsing and
query-filtering core of `src/SnapchatParser_v2.2.py`, with theorems settling
the frozen claims C1–C10.

Python strings are modelled as Lean `String`s, with all character-level
manipulation done on `List Char` through small executable helpers that mirror
the exact Python operations (`str.strip`, `str.lower`, `str.split`,
`str.isdigit`, `in`-substring tests, and the three `re.findall` patterns used
for media-token extraction).  `pandas` missing values (NaN/NaT) are modelled
as `Option` (`none` = missing); `notna` is `Option.isSome`, and the
NaN-to-`''` conversion applied when a row becomes a dict is `Option.getD ""`.
Timestamps are modelled as `Option Nat` (seconds); `datetime.isoformat` and
`str(int)` are injective on their domains, so the canonical-signature
encoding keeps the underlying number in a dedicated constructor.
-/

namespace Snap

/-! ## Character and string helpers (mirroring the Python string methods) -/

/-- `str.strip()`: remove leading and trailing whitespace. -/
def trimStr (s : String) : String :=
  String.mk (((s.data.dropWhile Char.isWhitespace).reverse.dropWhile Char.isWhitespace).reverse)

/-- `str.lower()` (ASCII case folding, which is all the parser's inputs use). -/
def lowerStr (s : String) : String :=
  String.mk (s.data.map Char.toLower)

/-- Python `needle in hay` substring test, on character lists. -/
def containsSub (needle : List Char) : List Char → Bool
  | [] => needle.isEmpty
  | c :: cs => needle.isPrefixOf (c :: cs) || containsSub needle cs

/-- Python `sub in s` on strings. -/
def strContains (hay needle : String) : Bool :=
  containsSub needle.data hay.data

/-- `str.split(sep)` for a one-character separator: Python semantics, so
`"".split(c) = [""]` and empty pieces are kept. -/
def splitCh (sep : Char) : List Char → List (List Char)
  | [] => [[]]
  | c :: cs =>
    if c = sep then [] :: splitCh sep cs
    else
      match splitCh sep cs with
      | [] => [[c]]
      | t :: ts => (c :: t) :: ts

/-- `str.split(sep)` for a one-character separator, on strings. -/
def splitStrCh (sep : Char) (s : String) : List String :=
  (splitCh sep s.data).map String.mk

/-- First occurrence split, `str.split(sep, 1)`: `some (before, after)` when
`sep` occurs, `none` otherwise. -/
def splitFirstSub (sep : List Char) : List Char → Option (List Char × List Char)
  | [] => none
  | c :: cs =>
    if sep.isPrefixOf (c :: cs) then some ([], (c :: cs).drop sep.length)
    else
      match splitFirstSub sep cs with
      | none => none
      | some (a, b) => some (c :: a, b)

/-- Python `str.isdigit()` for the ASCII inputs the parser sees: nonempty and
all decimal digits. -/
def isDigitStr (s : String) : Bool :=
  !s.data.isEmpty && s.data.all Char.isDigit

/-- Association-list lookup (Python `dict` access). -/
def assocFind {α : Type} (l : List (String × α)) (k : String) : Option α :=
  match l with
  | [] => none
  | (k', v) :: rest => if k' = k then some v else assocFind rest k

/-- Association-list store (Python `dict` assignment): update in place or
append a new key. -/
def assocPut {α : Type} (l : List (String × α)) (k : String) (v : α) : List (String × α) :=
  match l with
  | [] => [(k, v)]
  | (k', v') :: rest => if k' = k then (k, v) :: rest else (k', v') :: assocPut rest k v

/-! ## `parse_reactions` (lines 75–235)

The function splits the reactions string into parts (on `;`, legacy `,`),
derives `(user_id, reaction_value)` for each part, and renders each one.
`reactionPartFields` is the user/value derivation (lines 147–198):
`none` means the code appends the raw part unchanged, `some (u, v)` carries
`user_id` (`none` = Python `None`) and `reaction_value` (`none` = `None`,
`some ""` = the empty string the legacy path can produce). -/

/-- The reaction emoji table (lines 96–112); `.get(v, '❓')`. -/
def reactionEmoji (v : String) : String :=
  if v = "0" then "❓"
  else if v = "1" then "❤️"
  else if v = "2" then "😂"
  else if v = "3" then "🔥"
  else if v = "4" then "👍"
  else if v = "5" then "👎"
  else if v = "6" then "😢"
  else if v = "7" then "😮"
  else if v = "8" then "❓"
  else if v = "9" then "😘"
  else if v = "10" then "😭"
  else if v = "11" then "💀"
  else if v = "12" then "❗"
  else if v = "13" then "😠"
  else if v = "14" then "🫡"
  else "❓"

/-- The reaction name table (lines 115–131); `.get(v, 'Unknown')`. -/
def reactionName (v : String) : String :=
  if v = "0" then "Unset"
  else if v = "1" then "Love"
  else if v = "2" then "Laugh Cry"
  else if v = "3" then "Fire"
  else if v = "4" then "Thumbs Up"
  else if v = "5" then "Thumbs Down"
  else if v = "6" then "Sad Cry"
  else if v = "7" then "Wow"
  else if v = "8" then "Question Mark"
  else if v = "9" then "Kiss"
  else if v = "10" then "Sobbing"
  else if v = "11" then "Skull"
  else if v = "12" then "Exclamation Mark"
  else if v = "13" then "Angry"
  else if v = "14" then "Salute"
  else "Unknown"

/-- Lines 147–198: derive `(user_id, reaction_value)` from one reaction part,
or `none` when the code keeps the part as-is. -/
def reactionPartFields (p : String) : Option (Option String × Option String) :=
  if p.data.contains '-' then
    let ps := splitStrCh '-' p
    if 2 ≤ ps.length then
      let last := ps.getLastD ""
      if isDigitStr last then
        -- new format: everything before the last dash is the user id
        some (some (String.intercalate "-" ps.dropLast), some last)
      else if strContains p " - " then
        -- legacy format "user - value"
        match splitFirstSub " - ".data p.data with
        | some (a, b) => some (some (trimStr (String.mk a)), some (trimStr (String.mk b)))
        | none => none
      else if isDigitStr p then some (none, some p)
      else none
    else if strContains p " - " then
      match splitFirstSub " - ".data p.data with
      | some (a, b) => some (some (trimStr (String.mk a)), some (trimStr (String.mk b)))
      | none => none
    else none
  else if isDigitStr p then some (none, some p)
  else none

/-- Lines 200–203: the displayed user: the user id when truthy (mapped
through `user_id_map` when present and found), else `''`. -/
def displayUser (u : Option String) (umap : Option (List (String × String))) : String :=
  match u with
  | none => ""
  | some uid =>
    if uid = "" then ""
    else
      match umap with
      | none => uid
      | some m =>
        match assocFind m uid with
        | none => uid
        | some name => name

/-- Lines 205–232: render one parsed reaction part. -/
def renderFields (p : String) (u : Option String) (v : Option String)
    (umap : Option (List (String × String))) : String :=
  let du := displayUser u umap
  match v with
  | some rv =>
    if rv = "" then (if du = "" then p else du)
    else if isDigitStr rv then
      if rv = "0" then
        (if du = "" then "Unset/Unspecified" else du ++ " - Unset/Unspecified")
      else
        (if du = "" then reactionEmoji rv ++ " (" ++ reactionName rv ++ ")"
         else du ++ " - " ++ reactionEmoji rv ++ " (" ++ reactionName rv ++ ")")
    else (if du = "" then rv else du ++ " - " ++ rv)
  | none => (if du = "" then p else du)

/-- Render one reaction part end to end (`none` fields keep the raw part). -/
def renderReactionPart (p : String) (umap : Option (List (String × String))) : String :=
  match reactionPartFields p with
  | none => p
  | some (u, v) => renderFields p u v umap

/-- `parse_reactions(reactions_str, user_id_map)` (lines 75–235). -/
def parse_reactions (s : String) (umap : Option (List (String × String))) : String :=
  if trimStr s = "" then ""
  else
    let t := trimStr s
    let parts : List String :=
      if t.data.contains ';' then (splitStrCh ';' t).map trimStr
      else (splitStrCh ',' t).map trimStr
    let rendered := parts.foldl
      (fun acc p => if p = "" then acc else acc ++ [renderReactionPart p umap]) []
    String.intercalate ", " rendered

/-! ## Media-token extraction (`build_media_index` lines 1364–1419,
`find_media_by_media_id` lines 1421–1508, `find_reported_file_media`
lines 1511–1564)

The three `re.findall` patterns are embedded as fuel-indexed scanners over
character lists; the fuel is the input length, which every recursive call
strictly decreases, so the fuel never runs out and the scanners compute
exactly Python's leftmost, non-overlapping, greedy `findall` semantics. -/

/-- The `[A-Za-z0-9_\-]` class of pattern 1. -/
def isB64Char (c : Char) : Bool :=
  (('A' ≤ c && c ≤ 'Z') || ('a' ≤ c && c ≤ 'z') || ('0' ≤ c && c ≤ '9')
    || c = '_' || c = '-')

/-- The `[A-Za-z0-9_]` class of pattern 2. -/
def isWordCh (c : Char) : Bool :=
  ('A' ≤ c && c ≤ 'Z') || ('a' ≤ c && c ≤ 'z') || ('0' ≤ c && c ≤ '9') || c = '_'

/-- The `[0-9a-fA-F]` class of pattern 3. -/
def isHexCh (c : Char) : Bool :=
  ('0' ≤ c && c ≤ '9') || ('a' ≤ c && c ≤ 'f') || ('A' ≤ c && c ≤ 'F')

/-- `[A-Z]`. -/
def isUpperCh (c : Char) : Bool := 'A' ≤ c && c ≤ 'Z'

/-- `[0-9]`. -/
def isDigitCh (c : Char) : Bool := '0' ≤ c && c ≤ '9'

/-- `re.findall(r'b~([A-Za-z0-9_\-]{20,})', s)`. -/
def findBAux : Nat → List Char → List (List Char)
  | 0, _ => []
  | _ + 1, [] => []
  | fuel + 1, 'b' :: '~' :: rest =>
    let run := rest.takeWhile isB64Char
    if 20 ≤ run.length then run :: findBAux fuel (rest.dropWhile isB64Char)
    else findBAux fuel ('~' :: rest)
  | fuel + 1, _ :: cs => findBAux fuel cs

def findB (l : List Char) : List (List Char) := findBAux l.length l

/-- `re.findall(r'([A-Z][A-Za-z0-9_]{19,})', s)`. -/
def findUpperRunsAux : Nat → List Char → List (List Char)
  | 0, _ => []
  | _ + 1, [] => []
  | fuel + 1, c :: cs =>
    if isUpperCh c then
      let run := c :: cs.takeWhile isWordCh
      if 20 ≤ run.length then run :: findUpperRunsAux fuel (cs.dropWhile isWordCh)
      else findUpperRunsAux fuel cs
    else findUpperRunsAux fuel cs

def findUpperRuns (l : List Char) : List (List Char) := findUpperRunsAux l.length l

/-- `re.findall(r'([0-9a-fA-F]{32})', s)`: exactly 32 hex characters per
match, non-overlapping. -/
def find32hexAux : Nat → List Char → List (List Char)
  | 0, _ => []
  | _ + 1, [] => []
  | fuel + 1, c :: cs =>
    let l := c :: cs
    if (l.take 32).length = 32 && (l.take 32).all isHexCh then
      l.take 32 :: find32hexAux fuel (l.drop 32)
    else find32hexAux fuel cs

def find32hex (l : List Char) : List (List Char) := find32hexAux l.length l

/-- `re.search(r'[-_]{2,}', t)`: two consecutive characters each `-` or `_`. -/
def hasDoubleSep : List Char → Bool
  | [] => false
  | [_] => false
  | a :: b :: rest =>
    ((a = '-' || a = '_') && (b = '-' || b = '_')) || hasDoubleSep (b :: rest)

/-- `re.match(r'^\d{4}-\d{2}-\d{2}', t)`: a leading `YYYY-MM-DD`. -/
def hasDateLead : List Char → Bool
  | d1 :: d2 :: d3 :: d4 :: h1 :: d5 :: d6 :: h2 :: d7 :: d8 :: _ =>
    isDigitCh d1 && isDigitCh d2 && isDigitCh d3 && isDigitCh d4 && h1 = '-'
      && isDigitCh d5 && isDigitCh d6 && h2 = '-' && isDigitCh d7 && isDigitCh d8
  | _ => false

/-- `os.path.basename`: the part after the last `/`. -/
def basenameOf (p : String) : String :=
  (splitStrCh '/' p).getLastD ""

/-- An archive location `(zpath, internal)`. -/
abbrev Location := String × String

/-- A `basenames` element `(base, zpath, internal)`. -/
abbrev BaseEntry := String × String × String

/-- The token index: normalized token → location list (insertion order). -/
abbrev TokenIndex := List (String × List Location)

/-- The per-media-id memo dictionaries (`cache` parameters,
`self.media_lookup_cache`). -/
abbrev Cache := List (String × List Location)

/-- Append a location under a token, creating the key when absent and
skipping an already-present location (lines 1414–1417). -/
def tiInsert (ti : TokenIndex) (k : String) (loc : Location) : TokenIndex :=
  match ti with
  | [] => [(k, [loc])]
  | (k', locs) :: rest =>
    if k' = k then (k', if loc ∈ locs then locs else locs ++ [loc]) :: rest
    else (k', locs) :: tiInsert rest k loc

/-- Lines 1392–1406: `tokens_in_base`, the raw tokens of the three patterns
in extraction order, with pattern 2's folder-token rejections
(line 1401: no `[-_]{2,}`, fewer than 3 `-`, fewer than 3 `_`). -/
def tokensInBase (base : String) : List String :=
  ((findB base.data
     ++ (findUpperRuns base.data).filter
          (fun t => !hasDoubleSep t && t.count '-' < 3 && t.count '_' < 3)
     ++ find32hex base.data).map String.mk)

/-- Lines 1408–1413: the cleaned (lowercased, stripped) tokens that pass the
final index filter (length ≥ 20, fewer than 4 `-`, fewer than 4 `_`, no
leading date).  `set(tokens_in_base)` is modelled as `eraseDups`: per-token
insertion is idempotent per location, so only membership matters. -/
def indexedTokens (base : String) : List String :=
  ((tokensInBase base).eraseDups.map (fun t => trimStr (lowerStr t))).filter
    (fun tc => 20 ≤ tc.length && tc.data.count '-' < 4 && tc.data.count '_' < 4
      && !hasDateLead tc.data)

/-- Lines 1381–1417 for one archive entry: extend `basenames` and the token
index (the basename→location `mapping` and the conversations.csv list are
not consumed by any claim and are omitted). -/
def indexEntry (acc : List BaseEntry × TokenIndex) (e : Location) :
    List BaseEntry × TokenIndex :=
  let base := basenameOf e.2
  if base = "" then acc
  else
    ((acc.1 ++ [(base, e.1, e.2)]),
     (indexedTokens base).foldl (fun ti t => tiInsert ti t e) acc.2)

/-- `build_media_index` with `build_token_index=True`, over the recursive
entry scan's `(zpath, internal)` list. -/
def build_media_index (entries : List Location) : List BaseEntry × TokenIndex :=
  entries.foldl indexEntry ([], [])

/-- Lines 1442–1463: `cleaned_tokens` extracted from the (stripped) media id:
pattern-1 tokens lowercased/stripped when nonblank; pattern-2 tokens under
the lookup-side filter (length, `[-_]{2,}`, counts under 3, no date lead),
deduplicated against the list; pattern-3 tokens deduplicated. -/
def cleanedTokens (raw : String) : List String :=
  let bT := ((findB raw.data).map String.mk).filterMap
    (fun t => if trimStr t = "" then none else some (trimStr (lowerStr t)))
  let withUpper := (findUpperRuns raw.data).foldl
    (fun acc t =>
      let tc := trimStr (lowerStr (String.mk t))
      if 20 ≤ tc.length && !hasDoubleSep tc.data && tc.data.count '-' < 3
          && tc.data.count '_' < 3 && !hasDateLead tc.data && !(acc.contains tc)
      then acc ++ [tc] else acc) bT
  (find32hex raw.data).foldl
    (fun acc t =>
      let tc := trimStr (lowerStr (String.mk t))
      if acc.contains tc then acc else acc ++ [tc]) withUpper

/-- Dedup-append every element of `locs` onto `acc` (the `seen_paths` set). -/
def dedupAppend (acc : List Location) (locs : List Location) : List Location :=
  locs.foldl (fun a l => if l ∈ a then a else a ++ [l]) acc

/-- Lines 1471–1485: the token-index loop — try tokens in order, collect the
first hit's locations, stop at the first token with any match. -/
def tokenIndexLoop (ti : TokenIndex) : List String → List Location
  | [] => []
  | t :: rest =>
    match assocFind ti (lowerStr t) with
    | none => tokenIndexLoop ti rest
    | some locs =>
      let found := dedupAppend [] locs
      if found.isEmpty then tokenIndexLoop ti rest else found

/-- Lines 1486–1498: the linear fallback — for each token, scan the
basenames for entries containing it (case-insensitively) and append the
first not-yet-seen one (the `break` sits inside the seen-check, so an
already-recorded match does not stop the scan). -/
def linearLoop (bn : List BaseEntry) (tokens : List String) : List Location :=
  tokens.foldl
    (fun acc t =>
      let tl := lowerStr t
      match bn.find? (fun e =>
        (containsSub tl.data (lowerStr e.1).data
          || containsSub tl.data (lowerStr e.2.2).data)
          && !(decide ((e.2.1, e.2.2) ∈ acc))) with
      | none => acc
      | some e => acc ++ [(e.2.1, e.2.2)]) []

/-- `find_media_by_media_id(media_id, basenames, token_index, cache)`
(lines 1421–1508), returning the matches and the updated cache. -/
def find_media_by_media_id (mediaId : String) (bn : List BaseEntry)
    (ti : Option TokenIndex) (cache : Cache) : List Location × Cache :=
  if mediaId = "" then ([], cache)
  else
    let raw := trimStr mediaId
    match assocFind cache raw with
    | some v => (v, cache)
    | none =>
      let tokens := cleanedTokens raw
      let found :=
        match ti with
        | some tix => tokenIndexLoop tix tokens
        | none => linearLoop bn tokens
      (found, assocPut cache raw found)

/-- `find_reported_file_media(media_id, basenames, cache)` (lines 1511–1564):
a direct case-insensitive substring scan of the raw media id over every
basename and internal path, all matches kept (deduplicated). -/
def find_reported_file_media (mediaId : String) (bn : List BaseEntry)
    (cache : Cache) : List Location × Cache :=
  if mediaId = "" then ([], cache)
  else
    let raw := trimStr mediaId
    match assocFind cache raw with
    | some v => (v, cache)
    | none =>
      let ml := lowerStr raw
      let found := bn.foldl
        (fun acc e =>
          if containsSub ml.data (lowerStr e.1).data
              || containsSub ml.data (lowerStr e.2.2).data then
            (if (e.2.1, e.2.2) ∈ acc then acc else acc ++ [(e.2.1, e.2.2)])
          else acc) []
      (found, assocPut cache raw found)

/-! ### `get_media_path` resolution wiring (lines 4319–4424)

Both branches of `SnapParserMain.get_media_path` resolve against the session
state; the reported-file branch (line 4339) and the normal token lookup
(lines 4405–4407) each receive the same `self.media_lookup_cache`
dictionary.  File extraction to scratch storage is I/O and is outside the
embedding; the resolution results are the `(zpath, internal)` entry lists. -/

structure MediaSession where
  basenames : List BaseEntry
  token_index : Option TokenIndex
  media_lookup_cache : Cache
deriving DecidableEq

/-- The reported/flagged branch of `get_media_path` (lines 4337–4339):
`find_reported_file_media(raw, self.basenames, self.media_lookup_cache)`. -/
def get_media_path_reported (s : MediaSession) (mediaId : String) :
    List Location × MediaSession :=
  let (es, c) := find_reported_file_media (trimStr mediaId) s.basenames s.media_lookup_cache
  (es, { s with media_lookup_cache := c })

/-- One normal-branch sub-id lookup of `get_media_path` (lines 4404–4407):
`find_media_by_media_id(mid, self.basenames, self.token_index,
self.media_lookup_cache)`. -/
def get_media_path_normal_one (s : MediaSession) (mid : String) :
    List Location × MediaSession :=
  let (es, c) := find_media_by_media_id mid s.basenames s.token_index s.media_lookup_cache
  (es, { s with media_lookup_cache := c })

/-! ## The ingestion pipeline (`ZipLoaderThread.run`, lines 3920–4029)

A parsed CSV row (after the pandas read, before the acceptance mask) is a
`Row`: `Option` fields are the consumed columns (`none` = NaN/NaT), plus the
per-row provenance the loop attaches (`source`, `source_line`).  The columns
whose values the control flow never inspects (message_id, reply_to_message_id,
message_type, recipient_username, sender, receiver, message, content_id,
saved_by, is_one_on_one, upload_ip, source_port_number, reactions,
screenshotted_by, replayed_by, screen_recorded_by, read_by,
group_member_usernames, group_member_user_ids) are carried as the `others`
list; they take part in the duplicate signature like every other field. -/

structure Row where
  conversation_id : Option String
  conversation_title : Option String
  content_type : Option String
  sender_username : Option String
  media_id : Option String
  text : Option String
  timestamp : Option Nat
  source : String
  source_line : Nat
  others : List (Option String)
deriving DecidableEq

/-- A message dict after the NaN→`''` conversion of line 3957 (and the
timestamp conversion of line 3971).  `is_flagged_media = true` stands for the
keys `is_flagged_media`/`tags` being present (they are only ever added by the
reclassification of lines 3986–3995); `tags` is the row's tag set, always
empty at ingestion. -/
structure Msg where
  conversation_id : String
  conversation_title : String
  content_type : String
  sender_username : String
  media_id : String
  text : String
  timestamp : Option Nat
  source : String
  source_line : Nat
  others : List String
  is_flagged_media : Bool
  tags : List String
deriving DecidableEq

/-- Line 3957 (NaN→`''`, timestamps kept) applied to a parsed row. -/
def rowConvert (r : Row) : Msg where
  conversation_id := r.conversation_id.getD ""
  conversation_title := r.conversation_title.getD ""
  content_type := r.content_type.getD ""
  sender_username := r.sender_username.getD ""
  media_id := r.media_id.getD ""
  text := r.text.getD ""
  timestamp := r.timestamp
  source := r.source
  source_line := r.source_line
  others := r.others.map (·.getD "")
  is_flagged_media := false
  tags := []

/-- The normalized form of one dict value in the canonical signature
(lines 4004–4016): sets become sorted tuples, datetimes their ISO string,
every other value its `str` form.  `isoformat` on datetimes and `str` on
ints are injective, so the embedded constructors keep the number itself. -/
inductive CanonVal where
  | str : String → CanonVal
  | dt : Nat → CanonVal
  | setv : List String → CanonVal
deriving DecidableEq

/-- Insertion sort for `tuple(sorted(tags))`. -/
def insertSorted (s : String) : List String → List String
  | [] => [s]
  | x :: xs => if x < s then x :: insertSorted s xs else s :: x :: xs

def sortStrings (l : List String) : List String :=
  l.foldl (fun acc s => insertSorted s acc) []

/-- A signature key: `.std` is a named column of the fixed schema, `.extra i`
stands for the (distinct) name of the i-th remaining consumed column. -/
inductive FieldKey where
  | std : String → FieldKey
  | extra : Nat → FieldKey
deriving DecidableEq

/-- The signature items of the `others` columns, in fixed key order. -/
def othersSig (i : Nat) : List String → List (FieldKey × CanonVal)
  | [] => []
  | x :: xs => (FieldKey.extra i, CanonVal.str x) :: othersSig (i + 1) xs

/-- The canonical signature of a message dict (lines 4001–4017).  The dict's
key set is fixed per schema, so `tuple(sorted(canonical_items))` is a fixed
permutation of the items; signature equality is item-list equality, which the
fixed field order below preserves.  The `is_flagged_media` and `tags` entries
exist only when the reclassification added those keys (`flagSig`). -/
def flagSig (m : Msg) : List (FieldKey × CanonVal) :=
  if m.is_flagged_media then
    [(.std "is_flagged_media", .str "True"), (.std "tags", .setv (sortStrings m.tags))]
  else []

def canonicalSignature (m : Msg) : List (FieldKey × CanonVal) :=
  [(.std "conversation_id", .str m.conversation_id),
   (.std "conversation_title", .str m.conversation_title),
   (.std "content_type", .str m.content_type),
   (.std "sender_username", .str m.sender_username),
   (.std "media_id", .str m.media_id),
   (.std "text", .str m.text),
   (.std "timestamp", match m.timestamp with | some t => .dt t | none => .str ""),
   (.std "source", .str m.source),
   (.std "source_line", .dt m.source_line)]
  ++ othersSig 0 m.others
  ++ flagSig m

/-- Lines 3920–3999 for one row: the acceptance mask (line 3923–3929), the
flagged-media reclassification (lines 3973–3995), and the empty
`conversation_id` drop (lines 3997–3999).  `some m` is the candidate message
that reaches the duplicate check; `none` means the row is dropped before it. -/
def candMsg (r : Row) : Option Msg :=
  let normalMask := r.content_type.isSome && r.conversation_id.isSome
  let flaggedMask := r.sender_username.isSome && r.timestamp.isSome && r.media_id.isSome
  if !(normalMask || flaggedMask) then none
  else
    let m0 := rowConvert r
    let hasReq := m0.sender_username ≠ "" ∧ m0.timestamp.isSome ∧ m0.media_id ≠ ""
    let missingBoth := m0.conversation_id = "" ∧ m0.content_type = ""
    let m :=
      if hasReq ∧ missingBoth then
        { m0 with conversation_id := "__REPORTED_FILES__",
                  conversation_title := "Reported Files",
                  is_flagged_media := true, tags := [] }
      else m0
    if m.conversation_id = "" then none else some m

/-- The loader state: `all_messages`, the `conversations` defaultdict
(conversation id → ordered message indices), and
`seen_message_signatures`. -/
structure PipeState where
  messages : List Msg
  convs : List (String × List Nat)
  seen : List (List (FieldKey × CanonVal))
deriving DecidableEq

/-- `conversations[conv_id].append(message_index)` on the insertion-ordered
defaultdict. -/
def convAppend (l : List (String × List Nat)) (k : String) (i : Nat) :
    List (String × List Nat) :=
  match l with
  | [] => [(k, [i])]
  | (k', is) :: rest =>
    if k' = k then (k', is ++ [i]) :: rest else (k', is) :: convAppend rest k i

/-- Lines 4019–4029: record the signature, append the message, index it under
its conversation. -/
def pushMsg (st : PipeState) (m : Msg) : PipeState where
  messages := st.messages ++ [m]
  convs := convAppend st.convs m.conversation_id st.messages.length
  seen := st.seen ++ [canonicalSignature m]

/-- Process one parsed row end to end (lines 3920–4029). -/
def processRow (st : PipeState) (r : Row) : PipeState :=
  match candMsg r with
  | none => st
  | some m => if canonicalSignature m ∈ st.seen then st else pushMsg st m

/-- The whole per-import ingestion fold over every parsed row of every
discovered conversations.csv, in reading order. -/
def processRows (rows : List Row) : PipeState :=
  rows.foldl processRow ⟨[], [], []⟩

/-- The claim-side statement of "identical values in every field after
normalization": fieldwise equality of the two dicts' normalized values
(sets as sorted tuples, timestamps as ISO strings, ints and strings as their
string form), including provenance and the reclassification keys. -/
def normFieldsEq (a b : Msg) : Prop :=
  a.conversation_id = b.conversation_id ∧
  a.conversation_title = b.conversation_title ∧
  a.content_type = b.content_type ∧
  a.sender_username = b.sender_username ∧
  a.media_id = b.media_id ∧
  a.text = b.text ∧
  a.timestamp = b.timestamp ∧
  a.source = b.source ∧
  a.source_line = b.source_line ∧
  a.others = b.others ∧
  a.is_flagged_media = b.is_flagged_media ∧
  (a.is_flagged_media = true → sortStrings a.tags = sortStrings b.tags)

instance (a b : Msg) : Decidable (normFieldsEq a b) := by
  unfold normFieldsEq; infer_instance

/-! ## The query engine (`SnapParserMain.get_filtered_messages`,
lines 6438–6517, and `FilterDialog.get_filters`, lines 3546–3571)

`messages_df` rows carry the columns the filter mask reads plus the
precomputed lowercase `search_text`; a row's position is its
`original_index`.  `active_filters` is the dict of line 5895: it has a
`saved_by` key (read by the mask loop of line 6467) and the dialog's
`is_saved` key (lines 3567–3569), which `get_filtered_messages` never
reads. -/

structure DMsg where
  timestamp : Option Nat
  sender_username : String
  message_type : String
  content_type : String
  saved_by : String
  search_text : String
deriving DecidableEq

structure Filters where
  from_date : Option Nat
  to_date : Option Nat
  sender_username : Option String
  message_type : Option String
  content_type : Option String
  saved_by : Option String
  is_saved : Option Bool
deriving DecidableEq

structure QueryParams where
  query : Option String
  exact_match : Bool
  keyword_list : Option String
deriving DecidableEq

/-- The date part of the mask (lines 6462–6465): pandas comparisons against
NaT are false, so a missing timestamp passes only when no bound is active. -/
def rowPassesDates (f : Filters) (ts : Option Nat) : Bool :=
  (match f.from_date, ts with
   | none, _ => true
   | some _, none => false
   | some fd, some t => decide (fd ≤ t)) &&
  (match f.to_date, ts with
   | none, _ => true
   | some _, none => false
   | some td, some t => decide (t < td))

/-- One exact-match column filter of the loop at lines 6467–6470. -/
def passEqCol (fv : Option String) (cell : String) : Bool :=
  match fv with
  | none => true
  | some v => cell = v

/-- `[A-Za-z0-9_]`, the regex word class used by `\b`. -/
def isWordBoundCh (c : Char) : Bool := isWordCh c

/-- `re` word-boundary search `\b<literal>\b` over a haystack: an occurrence
of the literal with a word/non-word transition on both sides. -/
def wbMatchAux (q : List Char) (prev : Option Char) : List Char → Bool
  | [] => false
  | c :: cs =>
    (q.isPrefixOf (c :: cs)
      && (match q.head? with
          | none => false
          | some h =>
            (match prev with | none => false | some pc => isWordBoundCh pc) ≠ isWordBoundCh h)
      && (match q.getLast? with
          | none => false
          | some lc =>
            (match ((c :: cs).drop q.length).head? with
             | none => false
             | some nc => isWordBoundCh nc) ≠ isWordBoundCh lc))
    || wbMatchAux q (some c) cs

/-- `Series.str.contains(r'\b' + re.escape(q) + r'\b')` on one cell. -/
def wordBoundaryContains (hay q : String) : Bool :=
  wbMatchAux q.data none hay.data

/-- The free-text filter (lines 6473–6480). -/
def passQuery (qp : Option QueryParams) (searchText : String) : Bool :=
  match qp with
  | none => true
  | some q =>
    match q.query with
    | none => true
    | some qs =>
      if qs = "" then true
      else
        let ql := lowerStr qs
        if q.exact_match then wordBoundaryContains searchText ql
        else containsSub ql.data searchText.data

/-- The keyword-list filter (lines 6482–6496): OR over the list's non-empty
keywords, each substring- or whole-word-matched. -/
def passKeywordList (kwLists : List (String × List (String × Bool)))
    (qp : Option QueryParams) (searchText : String) : Bool :=
  match qp with
  | none => true
  | some q =>
    match q.keyword_list with
    | none => true
    | some name =>
      if name = "" then true
      else
        match assocFind kwLists name with
        | none => true
        | some kws =>
          if kws.isEmpty then true
          else
            kws.any (fun kw =>
              let k := lowerStr kw.1
              k ≠ "" &&
                (if kw.2 then wordBoundaryContains searchText k
                 else containsSub k.data searchText.data))

/-- The full row mask of lines 6458–6496 for one `messages_df` position. -/
def rowPasses (df : List DMsg) (kwLists : List (String × List (String × Bool)))
    (f : Filters) (qp : Option QueryParams) (i : Nat) : Bool :=
  match df[i]? with
  | none => false
  | some row =>
    rowPassesDates f row.timestamp
      && passEqCol f.sender_username row.sender_username
      && passEqCol f.message_type row.message_type
      && passEqCol f.content_type row.content_type
      && passEqCol f.saved_by row.saved_by
      && passQuery qp row.search_text
      && passKeywordList kwLists qp row.search_text

/-- The sort key of `sort_values(by='timestamp', ascending=True)`: missing
timestamps (NaT) sort last (`na_position='last'`). -/
def tsKey (df : List DMsg) (i : Nat) : Nat × Nat :=
  match df[i]? with
  | some row => (match row.timestamp with | some t => (0, t) | none => (1, 0))
  | none => (1, 0)

def keyLe (a b : Nat × Nat) : Bool :=
  decide (a.1 < b.1) || (a.1 = b.1 && decide (a.2 ≤ b.2))

/-- Stable insertion of `i` after every already-placed index with a key ≤ its
key.  (pandas' default quicksort is not stability-guaranteed; the model uses
a stable sort, which coincides except on equal timestamps.) -/
def insertByKey (key : Nat → Nat × Nat) (i : Nat) : List Nat → List Nat
  | [] => [i]
  | j :: js => if keyLe (key j) (key i) then j :: insertByKey key i js else i :: j :: js

def sortByTimestamp (df : List DMsg) (l : List Nat) : List Nat :=
  l.foldl (fun acc i => insertByKey (tsKey df) i acc) []

/-- `get_filtered_messages(conv_id, apply_filters, query_params)`
(lines 6438–6517) over the session's `messages_df`, `conversations` and
`keyword_lists`.  `conv_id = none` is Python `None` (all conversations);
a falsy or unknown conversation id returns `[]` (lines 6446–6451). -/
def get_filtered_messages (df : List DMsg) (convs : List (String × List Nat))
    (kwLists : List (String × List (String × Bool))) (f : Filters)
    (convId : Option String) (applyFilters : Bool) (qp : Option QueryParams) :
    List Nat :=
  if df.isEmpty then []
  else
    let indices? : Option (List Nat) :=
      match convId with
      | some cid =>
        if cid = "" then none
        else
          match assocFind convs cid with
          | some l => some l
          | none => none
      | none => some (List.range df.length)
    match indices? with
    | none => []
    | some idxs =>
      if idxs.isEmpty then []
      else if applyFilters then
        sortByTimestamp df
          ((List.range df.length).filter
            (fun i => idxs.contains i && rowPasses df kwLists f qp i))
      else
        sortByTimestamp df ((List.range df.length).filter (fun i => idxs.contains i))

/-- The date part of `FilterDialog.get_filters` (lines 3546–3555): cleared
dates give no bounds; otherwise `from_date` is the start of the chosen first
day and `to_date` the start of the chosen end day plus one day.  Days are
whole UTC days of 86400 seconds, `day*86400` their start instant. -/
def get_filters_dates (cleared : Bool) (fromDay toDay : Nat) : Option Nat × Option Nat :=
  if cleared then (none, none)
  else (some (fromDay * 86400), some (toDay * 86400 + 86400))

/-- An `active_filters` dict holding only the dialog's date bounds. -/
def dateOnlyFilters (p : Option Nat × Option Nat) : Filters where
  from_date := p.1
  to_date := p.2
  sender_username := none
  message_type := none
  content_type := none
  saved_by := none
  is_saved := none

/-! ## Theorems -/

/-- The fixed code → emoji/name table of `parse_reactions` for codes 1–14. -/
def reactionTable : List (String × String × String) :=
  [("1", "❤️", "Love"), ("2", "😂", "Laugh Cry"), ("3", "🔥", "Fire"),
   ("4", "👍", "Thumbs Up"), ("5", "👎", "Thumbs Down"), ("6", "😢", "Sad Cry"),
   ("7", "😮", "Wow"), ("8", "❓", "Question Mark"), ("9", "😘", "Kiss"),
   ("10", "😭", "Sobbing"), ("11", "💀", "Skull"), ("12", "❗", "Exclamation Mark"),
   ("13", "😠", "Angry"), ("14", "🫡", "Salute")]

/-- C6 counterexample: parsing the single reaction
`"00000000-0000-0000-0000-000000000000-3"` with no user-id map does NOT
yield `"🔥 (Fire)"` — the raw user id prefixes the emoji. -/
theorem C6_fire_reaction_counterexample :
    parse_reactions "00000000-0000-0000-0000-000000000000-3" none ≠ "🔥 (Fire)" := by
  decide

/-- C6 (amended): parsing the single reaction string
`"00000000-0000-0000-0000-000000000000-3"` with no user-id-to-username map
yields `"00000000-0000-0000-0000-000000000000 - 🔥 (Fire)"`: the Fire emoji
and name, prefixed by the raw user id. -/
theorem C6_fire_reaction_rendering :
    parse_reactions "00000000-0000-0000-0000-000000000000-3" none
      = "00000000-0000-0000-0000-000000000000 - 🔥 (Fire)" := by
  decide

/-- Evaluation of `renderFields` on a nonempty digit code. -/
theorem renderFields_digit (p : String) (u : Option String)
    (umap : Option (List (String × String))) (v : String)
    (hne : v ≠ "") (hdig : isDigitStr v = true) :
    renderFields p u (some v) umap =
      if v = "0" then
        (if displayUser u umap = "" then "Unset/Unspecified"
         else displayUser u umap ++ " - Unset/Unspecified")
      else
        (if displayUser u umap = "" then reactionEmoji v ++ " (" ++ reactionName v ++ ")"
         else displayUser u umap ++ " - " ++ reactionEmoji v ++ " (" ++ reactionName v ++ ")") := by
  simp only [renderFields]
  rw [if_neg hne, if_pos hdig]

/-- C7: a parsed reaction token whose code is `"0"` always renders as the
literal text `"Unset/Unspecified"` (prefixed by the displayed user when
present) and never as an emoji, while a token whose code is one of `"1"`
through `"14"` renders the fixed table's emoji and name (same prefixing). -/
theorem C7_reaction_zero_literal_and_table :
    (∀ p umap u, reactionPartFields p = some (u, some "0") →
      renderReactionPart p umap =
        (if displayUser u umap = "" then "Unset/Unspecified"
         else displayUser u umap ++ " - Unset/Unspecified")) ∧
    (∀ p umap u v e n, reactionPartFields p = some (u, some v) →
      (v, e, n) ∈ reactionTable →
      renderReactionPart p umap =
        (if displayUser u umap = "" then e ++ " (" ++ n ++ ")"
         else displayUser u umap ++ " - " ++ e ++ " (" ++ n ++ ")")) := by
  have htab : ∀ x ∈ reactionTable, isDigitStr x.1 = true ∧ x.1 ≠ "" ∧ x.1 ≠ "0"
      ∧ reactionEmoji x.1 = x.2.1 ∧ reactionName x.1 = x.2.2 := by decide
  constructor
  · intro p umap u h
    simp only [renderReactionPart, h]
    rw [renderFields_digit p u umap "0" (by decide) (by decide), if_pos rfl]
  · intro p umap u v e n h hmem
    obtain ⟨hdig, hne, h0, he, hn⟩ := htab (v, e, n) hmem
    simp only [renderReactionPart, h]
    rw [renderFields_digit p u umap v hne hdig, if_neg h0, he, hn]

/-- C7 witness: the two conjuncts applied at the concrete parts `"u-0"` and
`"u-3"`. -/
theorem C7_reaction_witness :
    renderReactionPart "u-0" none = "u - Unset/Unspecified" ∧
    renderReactionPart "u-3" none = "u - 🔥 (Fire)" := by
  constructor
  · rw [C7_reaction_zero_literal_and_table.1 "u-0" none (some "u") (by decide)]
    decide
  · rw [C7_reaction_zero_literal_and_table.2 "u-3" none (some "u") "3" "🔥" "Fire"
      (by decide) (by decide)]
    decide

/-- A saved message (non-empty `saved_by`). -/
def savedMsg : DMsg :=
  { timestamp := some 100, sender_username := "alice", message_type := "TEXT",
    content_type := "CHAT", saved_by := "bob", search_text := "hello world" }

/-- The `active_filters` dict after choosing "Only Unsaved" in the filter
dialog: `is_saved = False`, and no `saved_by` key. -/
def onlyUnsavedFilters : Filters :=
  { from_date := none, to_date := none, sender_username := none,
    message_type := none, content_type := none, saved_by := none,
    is_saved := some false }

/-- C8: the saved/unsaved predicate set by the filter dialog (`is_saved`) is
never consulted by `get_filtered_messages` (its column loop reads the never-set
`saved_by` key), so with "Only Unsaved" active a saved message is still
returned: the engine does not enforce every active predicate. -/
theorem C8_saved_filter_ignored :
    get_filtered_messages [savedMsg] [("c1", [0])] [] onlyUnsavedFilters none true none = [0]
      ∧ savedMsg.saved_by ≠ ""
      ∧ onlyUnsavedFilters.is_saved = some false := by
  decide

/-- C9: with an active date range, a message timestamp passes the date
predicate iff `from_date ≤ t < to_date`, where `to_date` is the start of the
chosen end day plus one day; hence every timestamp on the chosen final day
passes (when the range is non-empty) and no timestamp on the following day
does. -/
theorem C9_date_range_final_day :
    (∀ fromDay toDay t,
      rowPassesDates (dateOnlyFilters (get_filters_dates false fromDay toDay)) (some t) = true
        ↔ fromDay * 86400 ≤ t ∧ t < toDay * 86400 + 86400) ∧
    (∀ fromDay toDay t, fromDay ≤ toDay → t / 86400 = toDay →
      rowPassesDates (dateOnlyFilters (get_filters_dates false fromDay toDay)) (some t) = true) ∧
    (∀ fromDay toDay t, t / 86400 = toDay + 1 →
      rowPassesDates (dateOnlyFilters (get_filters_dates false fromDay toDay)) (some t) = false) := by
  have hiff : ∀ fromDay toDay t,
      rowPassesDates (dateOnlyFilters (get_filters_dates false fromDay toDay)) (some t) = true
        ↔ fromDay * 86400 ≤ t ∧ t < toDay * 86400 + 86400 := by
    intro fromDay toDay t
    simp [rowPassesDates, dateOnlyFilters, get_filters_dates]
  refine ⟨hiff, ?_, ?_⟩
  · intro fromDay toDay t hle hday
    rw [hiff]
    omega
  · intro fromDay toDay t hday
    rw [← Bool.not_eq_true]
    intro hcontra
    rw [hiff] at hcontra
    omega

/-- C9 witness: with the range day 0 .. day 2, a timestamp on day 2 passes
and a timestamp on day 3 fails. -/
theorem C9_date_range_witness :
    rowPassesDates (dateOnlyFilters (get_filters_dates false 0 2)) (some 200000) = true ∧
    rowPassesDates (dateOnlyFilters (get_filters_dates false 0 2)) (some 260000) = false := by
  constructor
  · exact C9_date_range_final_day.2.1 0 2 200000 (by decide) (by decide)
  · exact C9_date_range_final_day.2.2 0 2 260000 (by decide)

/-! ### Row acceptance and reclassification (C3, C4) -/

/-- The reclassified flagged-media message for a row. -/
def reportedMsg (r : Row) : Msg :=
  { rowConvert r with
    conversation_id := "__REPORTED_FILES__",
    conversation_title := "Reported Files", is_flagged_media := true, tags := [] }

/-- The acceptance mask of lines 3923–3929. -/
def maskPass (r : Row) : Prop :=
  (r.content_type.isSome ∧ r.conversation_id.isSome) ∨
    (r.sender_username.isSome ∧ r.timestamp.isSome ∧ r.media_id.isSome)

/-- The reclassification condition of lines 3973–3984, in terms of the raw
row (truthiness of the converted values). -/
def reclassCond (r : Row) : Prop :=
  (r.sender_username.getD "" ≠ "" ∧ r.timestamp.isSome ∧ r.media_id.getD "" ≠ "") ∧
    (r.conversation_id.getD "" = "" ∧ r.content_type.getD "" = "")

instance (r : Row) : Decidable (maskPass r) := by unfold maskPass; infer_instance

instance (r : Row) : Decidable (reclassCond r) := by unfold reclassCond; infer_instance

/-- Characterization of the pre-dedup row processing: the mask, then the
reclassification, then the empty-conversation-id drop. -/
theorem candMsg_eq (r : Row) :
    candMsg r =
      if maskPass r then
        (if reclassCond r then some (reportedMsg r)
         else if r.conversation_id.getD "" = "" then none else some (rowConvert r))
      else none := by
  simp only [candMsg, maskPass, reclassCond, reportedMsg, rowConvert]
  split_ifs <;>
    simp_all [Bool.or_eq_true, Bool.and_eq_true, Option.isSome_iff_ne_none] <;>
    tauto

/-- Processing exactly one row from the empty state. -/
theorem processRows_singleton (r : Row) :
    (processRows [r]).messages = match candMsg r with | none => [] | some m => [m] := by
  simp only [processRows, List.foldl, processRow]
  cases candMsg r with
  | none => rfl
  | some m => simp [pushMsg]

/-- A row with content_type, sender, timestamp and media_id present but no
conversation_id. -/
def noConvRow : Row :=
  { conversation_id := none, conversation_title := none,
    content_type := some "TEXT", sender_username := some "alice",
    media_id := some "m1", text := none, timestamp := some 1000,
    source := "chat_history/conversations.csv", source_line := 2, others := [] }

/-- C3 counterexample: a row with content_type, sender, timestamp and
media_id all present but conversation_id absent — the claim says it is kept,
but the pipeline drops it (it passes the acceptance mask, is not
reclassified because content_type is present, and then hits the empty
`conversation_id` drop of lines 3997–3999). -/
theorem C3_counterexample :
    (noConvRow.content_type.isSome ∧ noConvRow.sender_username.isSome
       ∧ noConvRow.timestamp.isSome ∧ noConvRow.media_id.isSome
       ∧ noConvRow.conversation_id = none
       ∧ (processRows [noConvRow]).messages = []) := by
  decide

/-- C3 (amended): a parsed row is kept iff it passes the acceptance mask
((content_type AND conversation_id present) OR (sender, timestamp, media_id
present)) and additionally its conversation id is non-empty or the row
qualifies for the flagged-media reclassification (sender/timestamp/media_id
non-empty with content_type and conversation_id both empty); in particular a
row with content_type, sender, timestamp and media_id present but
conversation_id absent is dropped. -/
theorem C3_row_acceptance :
    ∀ r : Row, (processRows [r]).messages ≠ [] ↔
      maskPass r ∧ (r.conversation_id.getD "" ≠ "" ∨ reclassCond r) := by
  intro r
  rw [processRows_singleton, candMsg_eq]
  by_cases hmask : maskPass r
  · rw [if_pos hmask]
    by_cases hre : reclassCond r
    · rw [if_pos hre]
      simp [hmask, hre]
    · rw [if_neg hre]
      by_cases hconv : r.conversation_id.getD "" = ""
      · rw [if_pos hconv]
        simp [hmask, hre, hconv]
      · rw [if_neg hconv]
        simp [hmask, hconv]
  · rw [if_neg hmask]
    simp [hmask]

/-- C4: a parsed row with non-empty sender, timestamp and media_id but empty
conversation_id and content_type is reassigned to the sentinel conversation
(id `"__REPORTED_FILES__"`, title `"Reported Files"`), marked
`is_flagged_media`, and given an empty tag set (no automatic tag); and a row
missing any of sender/timestamp/media_id while lacking the normal-row
fields contributes nothing to the output in any context. -/
theorem C4_reported_files_reclassification :
    (∀ r : Row, r.sender_username.getD "" ≠ "" → r.timestamp.isSome →
      r.media_id.getD "" ≠ "" → r.conversation_id.getD "" = "" →
      r.content_type.getD "" = "" →
      candMsg r = some (reportedMsg r) ∧
        (reportedMsg r).conversation_id = "__REPORTED_FILES__" ∧
        (reportedMsg r).conversation_title = "Reported Files" ∧
        (reportedMsg r).is_flagged_media = true ∧
        (reportedMsg r).tags = []) ∧
    (∀ (r : Row) (rows : List Row),
      (r.sender_username = none ∨ r.timestamp = none ∨ r.media_id = none) →
      ¬(r.content_type.isSome ∧ r.conversation_id.isSome) →
      processRows (rows ++ [r]) = processRows rows) := by
  constructor
  · intro r hs ht hm hcid hct
    have hre : reclassCond r := ⟨⟨hs, ht, hm⟩, hcid, hct⟩
    have hmask : maskPass r := by
      refine Or.inr ⟨?_, ht, ?_⟩
      · cases hsu : r.sender_username with
        | none => rw [hsu] at hs; simp at hs
        | some s => simp
      · cases hmi : r.media_id with
        | none => rw [hmi] at hm; simp at hm
        | some s => simp
    rw [candMsg_eq, if_pos hmask, if_pos hre]
    refine ⟨rfl, rfl, rfl, rfl, rfl⟩
  · intro r rows hmiss hnorm
    have hmask : ¬ maskPass r := by
      intro h
      rcases h with h | h
      · exact hnorm h
      · rcases hmiss with hm | hm | hm <;> rw [hm] at h <;> simp at h
    rw [processRows, List.foldl_append, List.foldl_cons, List.foldl_nil, processRow,
      candMsg_eq, if_neg hmask]
    rfl

/-- A flagged-media row: sender/timestamp/media_id present, nothing else. -/
def flaggedOnlyRow : Row :=
  { conversation_id := none, conversation_title := none, content_type := none,
    sender_username := some "alice", media_id := some "m1", text := none,
    timestamp := some 5, source := "s", source_line := 3, others := [] }

/-- A row missing the sender (and the normal-row fields). -/
def noSenderRow : Row :=
  { conversation_id := none, conversation_title := none, content_type := none,
    sender_username := none, media_id := some "m1", text := none,
    timestamp := some 5, source := "s", source_line := 3, others := [] }

/-- C4 witness: both conjuncts at concrete rows. -/
theorem C4_reported_files_witness :
    candMsg flaggedOnlyRow = some (reportedMsg flaggedOnlyRow) ∧
      processRows [noSenderRow] = processRows [] := by
  constructor
  · exact (C4_reported_files_reclassification.1 flaggedOnlyRow (by decide) (by decide)
      (by decide) (by decide) (by decide)).1
  · exact C4_reported_files_reclassification.2 noSenderRow [] (Or.inl rfl) (by decide)

/-! ### Reported-media resolution (C5) -/

/-- Membership in a dedup-append fold over base entries. -/
theorem foldDedup_mem (f : BaseEntry → Bool) (bn : List BaseEntry)
    (acc : List Location) (loc : Location) :
    loc ∈ bn.foldl
        (fun a e => if f e then (if (e.2.1, e.2.2) ∈ a then a else a ++ [(e.2.1, e.2.2)]) else a)
        acc ↔
      loc ∈ acc ∨ ∃ e ∈ bn, f e = true ∧ (e.2.1, e.2.2) = loc := by
  induction bn generalizing acc with
  | nil => simp
  | cons e rest ih =>
    simp only [List.foldl_cons]
    by_cases hf : f e = true
    · rw [if_pos hf]
      by_cases hmem : (e.2.1, e.2.2) ∈ acc
      · rw [if_pos hmem, ih]
        constructor
        · rintro (h | h)
          · exact Or.inl h
          · exact Or.inr (by obtain ⟨e', he', h1, h2⟩ := h; exact ⟨e', List.mem_cons_of_mem _ he', h1, h2⟩)
        · rintro (h | ⟨e', he', h1, h2⟩)
          · exact Or.inl h
          · rcases List.mem_cons.mp he' with rfl | he'
            · exact Or.inl (h2 ▸ hmem)
            · exact Or.inr ⟨e', he', h1, h2⟩
      · rw [if_neg hmem, ih]
        constructor
        · rintro (h | h)
          · rcases List.mem_append.mp h with h | h
            · exact Or.inl h
            · exact Or.inr ⟨e, List.mem_cons_self _ _, hf, (List.mem_singleton.mp h).symm⟩
          · exact Or.inr (by obtain ⟨e', he', h1, h2⟩ := h; exact ⟨e', List.mem_cons_of_mem _ he', h1, h2⟩)
        · rintro (h | ⟨e', he', h1, h2⟩)
          · exact Or.inl (List.mem_append.mpr (Or.inl h))
          · rcases List.mem_cons.mp he' with rfl | he'
            · exact Or.inl (List.mem_append.mpr (Or.inr (by simp [h2])))
            · exact Or.inr ⟨e', he', h1, h2⟩
    · rw [if_neg hf, ih]
      constructor
      · rintro (h | ⟨e', he', h1, h2⟩)
        · exact Or.inl h
        · exact Or.inr ⟨e', List.mem_cons_of_mem _ he', h1, h2⟩
      · rintro (h | ⟨e', he', h1, h2⟩)
        · exact Or.inl h
        · rcases List.mem_cons.mp he' with rfl | he'
          · exact absurd h1 hf
          · exact Or.inr ⟨e', he', h1, h2⟩

/-- C5 (amended): reported/flagged media resolution bypasses token
extraction — on a memo miss it returns exactly the archive entries whose
basename or internal path contains the raw media id case-insensitively (all
of them, deduplicated) — but it is memoized in the same `media_lookup_cache`
dictionary the normal lookup uses, so a cached entry for the same raw id is
returned as-is. -/
theorem C5_reported_media_resolution :
    (∀ (m : String) (bn : List BaseEntry) (loc : Location), m ≠ "" →
      (loc ∈ (find_reported_file_media m bn []).1 ↔
        ∃ b, (b, loc.1, loc.2) ∈ bn ∧
          (containsSub (lowerStr (trimStr m)).data (lowerStr b).data = true ∨
           containsSub (lowerStr (trimStr m)).data (lowerStr loc.2).data = true))) ∧
    (∀ (m : String) (bn : List BaseEntry) (c : Cache) (v : List Location), m ≠ "" →
      assocFind c (trimStr m) = some v → (find_reported_file_media m bn c).1 = v) := by
  constructor
  · intro m bn loc hm
    simp only [find_reported_file_media, if_neg hm, assocFind]
    rw [foldDedup_mem]
    simp only [List.not_mem_nil, false_or]
    constructor
    · rintro ⟨⟨b, z, i⟩, he, h1, h2⟩
      subst h2
      exact ⟨b, he, by simpa [Bool.or_eq_true] using h1⟩
    · rintro ⟨b, hb, hcond⟩
      exact ⟨(b, loc.1, loc.2), hb, by simpa [Bool.or_eq_true] using hcond, rfl⟩
  · intro m bn c v hm hc
    simp only [find_reported_file_media, if_neg hm, hc]

/-- C5 witness: both conjuncts at a concrete archive. -/
theorem C5_reported_media_witness :
    (("z.zip", "m/0a1b2c3d4e5f6a7b8c9d0e1f2a3b4c5d6.jpg") ∈
        (find_reported_file_media "a1b2c3d4e5f6a7b8c9d0e1f2a3b4c5d6"
          [("0a1b2c3d4e5f6a7b8c9d0e1f2a3b4c5d6.jpg", "z.zip",
            "m/0a1b2c3d4e5f6a7b8c9d0e1f2a3b4c5d6.jpg")] []).1) ∧
    (find_reported_file_media "a1b2c3d4e5f6a7b8c9d0e1f2a3b4c5d6" []
        [("a1b2c3d4e5f6a7b8c9d0e1f2a3b4c5d6", [("z.zip", "x")])]).1 = [("z.zip", "x")] := by
  constructor
  · exact (C5_reported_media_resolution.1 "a1b2c3d4e5f6a7b8c9d0e1f2a3b4c5d6" _ _
      (by decide)).mpr ⟨"0a1b2c3d4e5f6a7b8c9d0e1f2a3b4c5d6.jpg", by decide, by decide⟩
  · exact C5_reported_media_resolution.2 _ _ _ _ (by decide) (by decide)

/-- The session of the C5 counterexample: one archive file whose name
contains the media id, and a token index built from it. -/
def c5session : MediaSession where
  basenames := [("0a1b2c3d4e5f6a7b8c9d0e1f2a3b4c5d6.jpg", "z.zip",
    "m/0a1b2c3d4e5f6a7b8c9d0e1f2a3b4c5d6.jpg")]
  token_index := some (build_media_index
    [("z.zip", "m/0a1b2c3d4e5f6a7b8c9d0e1f2a3b4c5d6.jpg")]).2
  media_lookup_cache := []

/-- C5 counterexample: the reported-media memo is NOT separate from the
normal-lookup memo.  A fresh reported lookup of the media id finds the file
by substring search, but after a normal token lookup of the same id (a miss,
cached in the shared `media_lookup_cache`), the reported lookup returns the
cached miss instead. -/
theorem C5_shared_cache_counterexample :
    (get_media_path_reported c5session "a1b2c3d4e5f6a7b8c9d0e1f2a3b4c5d6").1
        = [("z.zip", "m/0a1b2c3d4e5f6a7b8c9d0e1f2a3b4c5d6.jpg")] ∧
    (get_media_path_reported
        (get_media_path_normal_one c5session "a1b2c3d4e5f6a7b8c9d0e1f2a3b4c5d6").2
        "a1b2c3d4e5f6a7b8c9d0e1f2a3b4c5d6").1 = [] := by
  decide

/-! ### Token-index symmetry (C2) -/

/-- The token index holds location `x` under token `k`. -/
def tiHas (ti : TokenIndex) (k : String) (x : Location) : Prop :=
  ∃ locs, assocFind ti k = some locs ∧ x ∈ locs

theorem tiHas_insert_self (ti : TokenIndex) (k : String) (loc : Location) :
    tiHas (tiInsert ti k loc) k loc := by
  induction ti with
  | nil => exact ⟨[loc], by simp [tiInsert, assocFind], by simp⟩
  | cons q rest ih =>
    obtain ⟨k', locs⟩ := q
    by_cases hk : k' = k
    · subst hk
      refine ⟨if loc ∈ locs then locs else locs ++ [loc], ?_, ?_⟩
      · simp [tiInsert, assocFind]
      · by_cases hmem : loc ∈ locs
        · simp [hmem]
        · simp [hmem]
    · obtain ⟨locs', h1, h2⟩ := ih
      exact ⟨locs', by simp [tiInsert, assocFind, hk, h1], h2⟩

theorem tiHas_insert_mono (ti : TokenIndex) (k k' : String) (loc x : Location)
    (h : tiHas ti k' x) : tiHas (tiInsert ti k loc) k' x := by
  induction ti with
  | nil => obtain ⟨locs, h1, _⟩ := h; simp [assocFind] at h1
  | cons q rest ih =>
    obtain ⟨kq, locs⟩ := q
    obtain ⟨ls, h1, h2⟩ := h
    by_cases hq : kq = k
    · subst hq
      by_cases hq' : kq = k'
      · subst hq'
        rw [assocFind, if_pos rfl] at h1
        obtain rfl : locs = ls := by injection h1
        refine ⟨if loc ∈ locs then locs else locs ++ [loc],
          by simp [tiInsert, assocFind], ?_⟩
        by_cases hmem : loc ∈ locs <;> simp [hmem, h2]
      · rw [assocFind, if_neg hq'] at h1
        exact ⟨ls, by simp [tiInsert, assocFind, hq', h1], h2⟩
    · by_cases hq' : kq = k'
      · subst hq'
        rw [assocFind, if_pos rfl] at h1
        obtain rfl : locs = ls := by injection h1
        exact ⟨locs, by simp [tiInsert, assocFind, hq], h2⟩
      · rw [assocFind, if_neg hq'] at h1
        obtain ⟨ls', h1', h2'⟩ := ih ⟨ls, h1, h2⟩
        exact ⟨ls', by simp [tiInsert, assocFind, hq, hq', h1'], h2'⟩

theorem tiHas_foldl_insert_mono (ts : List String) (e : Location) (k : String)
    (x : Location) : ∀ ti, tiHas ti k x →
    tiHas (ts.foldl (fun acc t => tiInsert acc t e) ti) k x := by
  induction ts with
  | nil => intro ti h; exact h
  | cons t rest ih =>
    intro ti h
    exact ih _ (tiHas_insert_mono _ _ _ _ _ h)

theorem tiHas_foldl_insert_self (ts : List String) (e : Location) (t : String)
    (h : t ∈ ts) : ∀ ti, tiHas (ts.foldl (fun acc t => tiInsert acc t e) ti) t e := by
  induction ts with
  | nil => cases h
  | cons t' rest ih =>
    intro ti
    simp only [List.foldl_cons]
    rcases List.mem_cons.mp h with rfl | h'
    · exact tiHas_foldl_insert_mono rest e t e _ (tiHas_insert_self ti t e)
    · exact ih h' _

/-- Building the index over any entry list records every indexed token of
every entry's basename. -/
theorem build_media_index_tiHas (entries : List Location) (z i : String) (tok : String)
    (hmem : (z, i) ∈ entries) (htok : tok ∈ indexedTokens (basenameOf i)) :
    tiHas (build_media_index entries).2 tok (z, i) := by
  suffices h : ∀ (acc : List BaseEntry × TokenIndex),
      ((z, i) ∈ entries ∧ tok ∈ indexedTokens (basenameOf i)) ∨ tiHas acc.2 tok (z, i) →
      tiHas (entries.foldl indexEntry acc).2 tok (z, i) by
    exact h ([], []) (Or.inl ⟨hmem, htok⟩)
  clear hmem htok
  induction entries with
  | nil =>
    rintro acc (⟨h, _⟩ | h)
    · cases h
    · exact h
  | cons e rest ih =>
    rintro acc (⟨hmem, htok⟩ | hacc)
    · rcases List.mem_cons.mp hmem with rfl | hmem
      · refine ih _ (Or.inr ?_)
        simp only [List.foldl_cons] at *
        simp only [indexEntry]
        have hbase : ¬ basenameOf i = "" := by
          intro hb
          have hempty : indexedTokens "" = [] := by decide
          rw [hb, hempty] at htok
          cases htok
        rw [if_neg hbase]
        exact tiHas_foldl_insert_self _ _ _ htok _
      · exact ih _ (Or.inl ⟨hmem, htok⟩)
    · refine ih _ (Or.inr ?_)
      simp only [indexEntry]
      split
      · exact hacc
      · exact tiHas_foldl_insert_mono _ _ _ _ _ hacc

/-- Membership through `dedupAppend`. -/
theorem dedupAppend_mem (locs : List Location) (acc : List Location) (x : Location) :
    x ∈ dedupAppend acc locs ↔ x ∈ acc ∨ x ∈ locs := by
  induction locs generalizing acc with
  | nil => simp [dedupAppend]
  | cons l rest ih =>
    simp only [dedupAppend, List.foldl_cons] at ih ⊢
    by_cases hmem : l ∈ acc
    · rw [if_pos hmem, ih]
      constructor
      · rintro (h | h)
        · exact Or.inl h
        · exact Or.inr (List.mem_cons_of_mem _ h)
      · rintro (h | h)
        · exact Or.inl h
        · rcases List.mem_cons.mp h with rfl | h
          · exact Or.inl hmem
          · exact Or.inr h
    · rw [if_neg hmem, ih]
      constructor
      · rintro (h | h)
        · rcases List.mem_append.mp h with h | h
          · exact Or.inl h
          · exact Or.inr (List.mem_cons.mpr (Or.inl (List.mem_singleton.mp h)))
        · exact Or.inr (List.mem_cons_of_mem _ h)
      · rintro (h | h)
        · exact Or.inl (List.mem_append.mpr (Or.inl h))
        · rcases List.mem_cons.mp h with rfl | h
          · exact Or.inl (List.mem_append.mpr (Or.inr (List.mem_singleton.mpr rfl)))
          · exact Or.inr h

/-- C2 (amended): for every archive entry and every token the index build
extracts from its basename under rules 1–3 (surviving the index filter),
looking up any media id whose lookup-side extraction yields that token as
its FIRST candidate returns a match list containing that entry's location.
(The claim's "any media_id containing the token" fails: the lookup regexes
can extend a match past the token — see the counterexample.) -/
theorem C2_token_indexing_symmetry :
    ∀ (entries : List Location) (bn : List BaseEntry) (z i m t : String)
      (rest : List String),
      (z, i) ∈ entries →
      cleanedTokens (trimStr m) = t :: rest →
      lowerStr t ∈ indexedTokens (basenameOf i) →
      m ≠ "" →
      (z, i) ∈ (find_media_by_media_id m bn
        (some (build_media_index entries).2) []).1 := by
  intro entries bn z i m t rest hmem hclean htok hm
  have hhas := build_media_index_tiHas entries z i (lowerStr t) hmem htok
  obtain ⟨locs, hfind, hx⟩ := hhas
  simp only [find_media_by_media_id, if_neg hm, assocFind, hclean, tokenIndexLoop, hfind]
  have hmm : (z, i) ∈ dedupAppend [] locs := (dedupAppend_mem _ _ _).mpr (Or.inr hx)
  have hne : (dedupAppend [] locs).isEmpty = false := by
    cases hd : dedupAppend [] locs with
    | nil => rw [hd] at hmm; cases hmm
    | cons a l => simp [List.isEmpty]
  rw [hne]
  · simpa using hmm

/-- C2 witness: the amended symmetry at a concrete archive — indexing
`media/Abcdefghij0123456789.jpg` under rule 2 and looking up the media id
`"Abcdefghij0123456789"` returns that file's location. -/
theorem C2_token_indexing_witness :
    ("z.zip", "media/Abcdefghij0123456789.jpg") ∈
      (find_media_by_media_id "Abcdefghij0123456789" []
        (some (build_media_index [("z.zip", "media/Abcdefghij0123456789.jpg")]).2) []).1 := by
  exact C2_token_indexing_symmetry [("z.zip", "media/Abcdefghij0123456789.jpg")] []
    "z.zip" "media/Abcdefghij0123456789.jpg" "Abcdefghij0123456789"
    "abcdefghij0123456789" [] (by decide) (by decide) (by decide) (by decide)

/-- C2 counterexample: the claim as stated — "looking up any media_id
containing that same token returns that file's location" — is false.  The
basename `Abcdefghij0123456789.jpg` is indexed under rule 2 with token
`abcdefghij0123456789`; the media id `"ZAbcdefghij0123456789"` contains that
token (in original and lowercased form), yet the lookup returns no match,
because lookup-side extraction captures the longer run
`zabcdefghij0123456789`. -/
theorem C2_containing_token_counterexample :
    ("abcdefghij0123456789" ∈ indexedTokens (basenameOf "media/Abcdefghij0123456789.jpg")
      ∧ strContains "ZAbcdefghij0123456789" "Abcdefghij0123456789" = true
      ∧ strContains (lowerStr "ZAbcdefghij0123456789") "abcdefghij0123456789" = true
      ∧ (find_media_by_media_id "ZAbcdefghij0123456789" []
          (some (build_media_index [("z.zip", "media/Abcdefghij0123456789.jpg")]).2) []).1
        = []) := by
  decide

/-! ### Duplicate suppression (C1) -/

/-- Splitting an `othersSig` block followed by a std-keyed tail is
unambiguous: the two parts are determined. -/
theorem othersSig_append_inj (a : List String) :
    ∀ (i : Nat) (b : List String) (x y : List (FieldKey × CanonVal)),
      (∀ k v, x.head? = some (k, v) → ∃ s, k = FieldKey.std s) →
      (∀ k v, y.head? = some (k, v) → ∃ s, k = FieldKey.std s) →
      othersSig i a ++ x = othersSig i b ++ y → a = b ∧ x = y := by
  induction a with
  | nil =>
    intro i b x y hx hy heq
    cases b with
    | nil =>
      refine ⟨rfl, ?_⟩
      simpa [othersSig] using heq
    | cons s bs =>
      exfalso
      simp only [othersSig, List.nil_append, List.cons_append] at heq
      obtain ⟨s', hs'⟩ := hx (FieldKey.extra i) (CanonVal.str s) (by rw [heq]; rfl)
      simp at hs'
  | cons s as ih =>
    intro i b x y hx hy heq
    cases b with
    | nil =>
      exfalso
      simp only [othersSig, List.nil_append, List.cons_append] at heq
      obtain ⟨s', hs'⟩ := hy (FieldKey.extra i) (CanonVal.str s) (by rw [← heq]; rfl)
      simp at hs'
    | cons s2 bs =>
      simp only [othersSig, List.cons_append, List.cons.injEq, Prod.mk.injEq,
        CanonVal.str.injEq, true_and] at heq
      obtain ⟨hval, htail⟩ := heq
      obtain ⟨hab, hxy⟩ := ih (i + 1) bs x y hx hy htail
      exact ⟨by rw [hval, hab], hxy⟩

/-- Two message dicts have equal canonical signatures iff every normalized
field agrees — sets as sorted tuples, timestamps as ISO strings, provenance
and the reclassification keys included. -/
theorem canonicalSignature_eq_iff (a b : Msg) :
    canonicalSignature a = canonicalSignature b ↔ normFieldsEq a b := by
  constructor
  · intro h
    simp only [canonicalSignature, List.cons_append, List.nil_append, List.cons.injEq,
      Prod.mk.injEq, CanonVal.str.injEq, CanonVal.dt.injEq, true_and] at h
    obtain ⟨h1, h2, h3, h4, h5, h6, hts, h8, h9, htail⟩ := h
    have hts' : a.timestamp = b.timestamp := by
      cases ha : a.timestamp <;> cases hb : b.timestamp <;> rw [ha, hb] at hts <;> simp_all
    have hx : ∀ k v, (flagSig a).head? = some (k, v) → ∃ s, k = FieldKey.std s := by
      intro k v hkv
      by_cases hf : a.is_flagged_media <;> simp [flagSig, hf] at hkv
      exact ⟨"is_flagged_media", hkv.1.symm⟩
    have hy : ∀ k v, (flagSig b).head? = some (k, v) → ∃ s, k = FieldKey.std s := by
      intro k v hkv
      by_cases hf : b.is_flagged_media <;> simp [flagSig, hf] at hkv
      exact ⟨"is_flagged_media", hkv.1.symm⟩
    obtain ⟨hoth, hflag⟩ := othersSig_append_inj a.others 0 b.others _ _ hx hy htail
    have hfl : a.is_flagged_media = b.is_flagged_media := by
      by_cases hfa : a.is_flagged_media <;> by_cases hfb : b.is_flagged_media <;>
        simp_all [flagSig]
    have htags : a.is_flagged_media = true → sortStrings a.tags = sortStrings b.tags := by
      intro hfa
      have hfb : b.is_flagged_media = true := hfl ▸ hfa
      simp only [flagSig, hfa, hfb, if_true, List.cons.injEq, Prod.mk.injEq,
        CanonVal.setv.injEq] at hflag
      exact hflag.2.1.2
    exact ⟨h1, h2, h3, h4, h5, h6, hts', h8, h9, hoth, hfl, htags⟩
  · rintro ⟨h1, h2, h3, h4, h5, h6, h7, h8, h9, h10, h11, h12⟩
    simp only [canonicalSignature, h1, h2, h3, h4, h5, h6, h7, h8, h9, h10]
    by_cases hf : b.is_flagged_media
    · have hfa : a.is_flagged_media = true := h11.trans hf
      simp [flagSig, hf, hfa, h12 hfa]
    · have hfa : a.is_flagged_media = false := by rw [h11]; exact Bool.not_eq_true _ ▸ hf
      simp [flagSig, hf, hfa]

/-- `candMsg` never changes the text field. -/
theorem candMsg_text (r : Row) (m : Msg) (h : candMsg r = some m) :
    m.text = r.text.getD "" := by
  rw [candMsg_eq] at h
  by_cases h1 : maskPass r
  · rw [if_pos h1] at h
    by_cases h2 : reclassCond r
    · rw [if_pos h2] at h
      injection h with hh
      subst hh
      rfl
    · rw [if_neg h2] at h
      by_cases h3 : r.conversation_id.getD "" = ""
      · rw [if_pos h3] at h; cases h
      · rw [if_neg h3] at h
        injection h with hh
        subst hh
        rfl
  · rw [if_neg h1] at h; cases h

/-- The seen-signature set is exactly the signatures of the kept messages. -/
theorem processRow_seen (st : PipeState) (r : Row)
    (h : st.seen = st.messages.map canonicalSignature) :
    (processRow st r).seen = (processRow st r).messages.map canonicalSignature := by
  cases hc : candMsg r with
  | none => simp only [processRow, hc]; exact h
  | some m =>
    simp only [processRow, hc]
    by_cases hdup : canonicalSignature m ∈ st.seen
    · rw [if_pos hdup]; exact h
    · rw [if_neg hdup]; simp [pushMsg, h]

theorem processRows_seen (rows : List Row) :
    (processRows rows).seen = (processRows rows).messages.map canonicalSignature := by
  suffices h : ∀ st : PipeState, st.seen = st.messages.map canonicalSignature →
      (rows.foldl processRow st).seen
        = (rows.foldl processRow st).messages.map canonicalSignature by
    exact h ⟨[], [], []⟩ rfl
  induction rows with
  | nil => intro st h; exact h
  | cons r rest ih =>
    intro st h
    exact ih _ (processRow_seen st r h)

/-- C1: a row reaching the duplicate check is discarded iff an earlier-kept
message has identical values in every normalized field (sets as sorted
tuples, timestamps as ISO strings, source and source_line included);
hence one import seeing the same parsed row twice (all fields, provenance
included) keeps exactly one copy, while two rows differing only in the text
field are both kept. -/
theorem C1_duplicate_suppression :
    (∀ (rows : List Row) (r : Row) (m : Msg), candMsg r = some m →
      (processRows (rows ++ [r])).messages =
        (processRows rows).messages ++
          (if ∃ m' ∈ (processRows rows).messages, normFieldsEq m' m then [] else [m])) ∧
    (∀ r : Row, processRows [r, r] = processRows [r]) ∧
    (∀ r₁ r₂ : Row, r₂ = { r₁ with text := r₂.text } →
      r₁.text.getD "" ≠ r₂.text.getD "" →
      (processRows [r₁]).messages.length = 1 →
      (processRows [r₂]).messages.length = 1 →
      (processRows [r₁, r₂]).messages.length = 2) := by
  refine ⟨?_, ?_, ?_⟩
  · intro rows r m hc
    have hform : processRows (rows ++ [r]) = processRow (processRows rows) r := by
      simp [processRows, List.foldl_append]
    rw [hform]
    simp only [processRow, hc]
    have hseen : canonicalSignature m ∈ (processRows rows).seen ↔
        ∃ m' ∈ (processRows rows).messages, normFieldsEq m' m := by
      rw [processRows_seen]
      simp only [List.mem_map]
      constructor
      · rintro ⟨m', hm', hsig⟩
        exact ⟨m', hm', (canonicalSignature_eq_iff m' m).mp hsig⟩
      · rintro ⟨m', hm', hf⟩
        exact ⟨m', hm', (canonicalSignature_eq_iff m' m).mpr hf⟩
    by_cases hdup : canonicalSignature m ∈ (processRows rows).seen
    · rw [if_pos hdup, if_pos (hseen.mp hdup)]
      simp
    · rw [if_neg hdup, if_neg (fun hex => hdup (hseen.mpr hex))]
      simp [pushMsg]
  · intro r
    simp only [processRows, List.foldl_cons, List.foldl_nil]
    cases hc : candMsg r with
    | none => simp [processRow, hc]
    | some m =>
      have h1 : processRow ⟨[], [], []⟩ r = pushMsg ⟨[], [], []⟩ m := by
        simp [processRow, hc]
      rw [h1]
      simp [processRow, hc, pushMsg]
  · intro r1 r2 _ htext h1 h2
    rw [processRows_singleton] at h1 h2
    cases hc1 : candMsg r1 with
    | none => rw [hc1] at h1; simp at h1
    | some m1 =>
    cases hc2 : candMsg r2 with
    | none => rw [hc2] at h2; simp at h2
    | some m2 =>
    simp only [processRows, List.foldl_cons, List.foldl_nil]
    have hst1 : processRow ⟨[], [], []⟩ r1 = pushMsg ⟨[], [], []⟩ m1 := by
      simp [processRow, hc1]
    rw [hst1]
    have hnd : canonicalSignature m2 ∉ (pushMsg ⟨[], [], []⟩ m1).seen := by
      simp only [pushMsg, List.nil_append, List.mem_singleton]
      intro hsig
      have hf := (canonicalSignature_eq_iff m1 m2).mp hsig.symm
      have htxt := hf.2.2.2.2.2.1
      rw [candMsg_text r1 m1 hc1, candMsg_text r2 m2 hc2] at htxt
      exact htext htxt
    simp only [processRow, hc2]
    rw [if_neg hnd]
    simp [pushMsg]

/-- A concrete kept row, and the same row with different text. -/
def dupRow : Row :=
  { conversation_id := some "c1", conversation_title := some "T",
    content_type := some "TEXT", sender_username := some "alice",
    media_id := some "m1", text := some "hi", timestamp := some 1000,
    source := "chat_history/conversations.csv", source_line := 2, others := [] }

def dupTextRow : Row := { dupRow with text := some "different" }

/-- C1 witness: one import seeing `dupRow` twice keeps one copy; seeing
`dupRow` and its text-variant keeps both. -/
theorem C1_duplicate_suppression_witness :
    (processRows [dupRow, dupRow]).messages.length = 1 ∧
    (processRows [dupRow, dupTextRow]).messages.length = 2 := by
  constructor
  · rw [C1_duplicate_suppression.2.1 dupRow]
    decide
  · exact C1_duplicate_suppression.2.2 dupRow dupTextRow (by decide) (by decide)
      (by decide) (by decide)

/-! ### Conversation-index partition invariant (C10) -/

/-- The conversation id of the message at a dataset index. -/
def convAt (msgs : List Msg) (j : Nat) : Option String := msgs[j]?.map Msg.conversation_id

/-- The indices of the messages in conversation `c`, in dataset order. -/
def convListOf (msgs : List Msg) (c : String) : List Nat :=
  (List.range msgs.length).filter (fun j => decide (convAt msgs j = some c))

/-- How often index `i` appears across all conversation lists. -/
def convIndexCount (st : PipeState) (i : Nat) : Nat :=
  (st.convs.map (fun p => p.2.count i)).sum

theorem assocFind_mem {α : Type} (l : List (String × α)) (k : String) (v : α)
    (h : assocFind l k = some v) : (k, v) ∈ l := by
  induction l with
  | nil => simp [assocFind] at h
  | cons q rest ih =>
    obtain ⟨k', v'⟩ := q
    rw [assocFind] at h
    by_cases hk : k' = k
    · rw [if_pos hk] at h
      injection h with h
      exact List.mem_cons.mpr (Or.inl (by rw [hk, h]))
    · rw [if_neg hk] at h
      exact List.mem_cons_of_mem _ (ih h)

theorem mem_assocFind {α : Type} (l : List (String × α)) (k : String) (v : α)
    (hnd : (l.map Prod.fst).Nodup) (h : (k, v) ∈ l) : assocFind l k = some v := by
  induction l with
  | nil => cases h
  | cons q rest ih =>
    obtain ⟨k', v'⟩ := q
    simp only [List.map_cons, List.nodup_cons] at hnd
    rcases List.mem_cons.mp h with heq | h'
    · injection heq with h1 h2
      subst h1; subst h2
      rw [assocFind, if_pos rfl]
    · rw [assocFind]
      by_cases hk : k' = k
      · exfalso
        apply hnd.1
        rw [hk]
        exact List.mem_map.mpr ⟨(k, v), h', rfl⟩
      · rw [if_neg hk]
        exact ih hnd.2 h'

theorem assocFind_convAppend_self (l : List (String × List Nat)) (k : String) (i : Nat) :
    assocFind (convAppend l k i) k = some ((assocFind l k).getD [] ++ [i]) := by
  induction l with
  | nil => simp [convAppend, assocFind]
  | cons q rest ih =>
    obtain ⟨k', is⟩ := q
    by_cases hk : k' = k
    · subst hk
      simp [convAppend, assocFind]
    · simp only [convAppend, if_neg hk, assocFind]
      exact ih

theorem assocFind_convAppend_other (l : List (String × List Nat)) (k : String) (i : Nat)
    (k' : String) (h : k' ≠ k) :
    assocFind (convAppend l k i) k' = assocFind l k' := by
  induction l with
  | nil =>
    simp only [convAppend, assocFind]
    rw [if_neg (fun hh => h hh.symm)]
  | cons q rest ih =>
    obtain ⟨kq, is⟩ := q
    by_cases hk : kq = k
    · subst hk
      simp only [convAppend, if_pos rfl, assocFind]
      rw [if_neg (fun hh => h hh.symm), if_neg (fun hh => h hh.symm)]
    · simp only [convAppend, if_neg hk, assocFind]
      by_cases hk' : kq = k'
      · rw [if_pos hk', if_pos hk']
      · rw [if_neg hk', if_neg hk', ih]

theorem convAppend_keys (l : List (String × List Nat)) (k : String) (i : Nat) :
    (convAppend l k i).map Prod.fst =
      if k ∈ l.map Prod.fst then l.map Prod.fst else l.map Prod.fst ++ [k] := by
  induction l with
  | nil => simp [convAppend]
  | cons q rest ih =>
    obtain ⟨kq, is⟩ := q
    by_cases hk : kq = k
    · subst hk
      simp [convAppend]
    · simp only [convAppend, if_neg hk, List.map_cons, ih]
      by_cases hmem : k ∈ rest.map Prod.fst
      · rw [if_pos hmem, if_pos (List.mem_cons.mpr (Or.inr hmem))]
      · have hnot : k ∉ kq :: rest.map Prod.fst := by
          intro hh
          rcases List.mem_cons.mp hh with hh | hh
          · exact hk hh.symm
          · exact hmem hh
        rw [if_neg hmem, if_neg hnot]
        simp

theorem convListOf_append (msgs : List Msg) (m : Msg) (c : String) :
    convListOf (msgs ++ [m]) c =
      convListOf msgs c ++ (if m.conversation_id = c then [msgs.length] else []) := by
  have hlen : (msgs ++ [m]).length = msgs.length + 1 := by simp
  simp only [convListOf, hlen]
  rw [List.range_succ, List.filter_append]
  congr 1
  · apply List.filter_congr
    intro j hj
    have hlt : j < msgs.length := List.mem_range.mp hj
    simp only [convAt, List.getElem?_append_left hlt]
  · have hat : convAt (msgs ++ [m]) msgs.length = some m.conversation_id := by
      simp [convAt, List.getElem?_concat_length]
    by_cases hcc : m.conversation_id = c <;>
      simp [List.filter_cons, hat, hcc]

/-- The ingest invariant: distinct conversation keys, each key's list being
exactly the dataset indices of its messages, and no indices outside the
recorded keys. -/
def pipeInv (st : PipeState) : Prop :=
  (st.convs.map Prod.fst).Nodup ∧
  (∀ c lst, assocFind st.convs c = some lst → lst = convListOf st.messages c) ∧
  (∀ c, assocFind st.convs c = none → convListOf st.messages c = [])

theorem pipeInv_empty : pipeInv ⟨[], [], []⟩ := by
  refine ⟨by simp, ?_, ?_⟩
  · intro c lst h
    simp [assocFind] at h
  · intro c _
    simp [convListOf]

theorem pipeInv_step (st : PipeState) (r : Row) (h : pipeInv st) :
    pipeInv (processRow st r) := by
  obtain ⟨hnd, hfind, hnone⟩ := h
  cases hc : candMsg r with
  | none =>
    simp only [processRow, hc]
    exact ⟨hnd, hfind, hnone⟩
  | some m =>
    simp only [processRow, hc]
    by_cases hdup : canonicalSignature m ∈ st.seen
    · rw [if_pos hdup]
      exact ⟨hnd, hfind, hnone⟩
    · rw [if_neg hdup]
      refine ⟨?_, ?_, ?_⟩
      · simp only [pushMsg]
        rw [convAppend_keys]
        by_cases hmem : m.conversation_id ∈ st.convs.map Prod.fst
        · rw [if_pos hmem]; exact hnd
        · rw [if_neg hmem]
          refine List.Nodup.append hnd (List.nodup_singleton _) ?_
          intro a ha hb
          rw [List.mem_singleton] at hb
          exact hmem (hb ▸ ha)
      · intro c lst hfound
        simp only [pushMsg] at hfound ⊢
        by_cases hck : c = m.conversation_id
        · subst hck
          rw [assocFind_convAppend_self] at hfound
          injection hfound with hlst
          subst hlst
          rw [convListOf_append, if_pos rfl]
          congr 1
          cases hfind0 : assocFind st.convs m.conversation_id with
          | none => simp [hnone _ hfind0]
          | some old => simp [hfind _ _ hfind0]
        · rw [assocFind_convAppend_other _ _ _ _ hck] at hfound
          rw [convListOf_append, if_neg (fun hh => hck hh.symm)]
          simp [hfind c lst hfound]
      · intro c hnonef
        simp only [pushMsg] at hnonef ⊢
        by_cases hck : c = m.conversation_id
        · subst hck
          rw [assocFind_convAppend_self] at hnonef
          cases hnonef
        · rw [assocFind_convAppend_other _ _ _ _ hck] at hnonef
          rw [convListOf_append, if_neg (fun hh => hck hh.symm), hnone _ hnonef]
          simp

theorem processRows_inv (rows : List Row) : pipeInv (processRows rows) := by
  suffices h : ∀ st, pipeInv st → pipeInv (rows.foldl processRow st) from h _ pipeInv_empty
  induction rows with
  | nil => intro st h; exact h
  | cons r rest ih =>
    intro st h
    exact ih _ (pipeInv_step st r h)

theorem count_convListOf (msgs : List Msg) (c : String) (i : Nat)
    (hi : i < msgs.length) (mi : Msg) (hmi : msgs[i]? = some mi) :
    (convListOf msgs c).count i = if c = mi.conversation_id then 1 else 0 := by
  have hnd : (convListOf msgs c).Nodup := (List.nodup_range _).filter _
  by_cases hcc : c = mi.conversation_id
  · rw [if_pos hcc]
    have hmem : i ∈ convListOf msgs c := by
      simp [convListOf, List.mem_filter, List.mem_range, hi, convAt, hmi, hcc]
    exact List.count_eq_one_of_mem hnd hmem
  · rw [if_neg hcc]
    apply List.count_eq_zero_of_not_mem
    intro hmem
    have h2 := (List.mem_filter.mp hmem).2
    simp only [convAt, hmi] at h2
    simp at h2
    exact hcc h2.symm

theorem sum_count_one (l : List (String × List Nat)) (c : String) (i : Nat)
    (hnd : (l.map Prod.fst).Nodup) (hc : c ∈ l.map Prod.fst)
    (hcount : ∀ p ∈ l, p.2.count i = if p.1 = c then 1 else 0) :
    (l.map (fun p => p.2.count i)).sum = 1 := by
  induction l with
  | nil => cases hc
  | cons q rest ih =>
    simp only [List.map_cons, List.sum_cons]
    simp only [List.map_cons, List.nodup_cons] at hnd
    by_cases hq : q.1 = c
    · rw [hcount q (List.mem_cons_self _ _), if_pos hq]
      have hrest : (rest.map (fun p => p.2.count i)).sum = 0 := by
        apply List.sum_eq_zero
        intro x hx
        obtain ⟨p, hp, rfl⟩ := List.mem_map.mp hx
        rw [hcount p (List.mem_cons_of_mem _ hp), if_neg ?_]
        intro hpc
        exact hnd.1 (hq ▸ hpc ▸ List.mem_map.mpr ⟨p, hp, rfl⟩)
      rw [hrest]
    · rw [hcount q (List.mem_cons_self _ _), if_neg hq]
      have hc' : c ∈ rest.map Prod.fst := by
        rcases List.mem_cons.mp hc with h | h
        · exact absurd h.symm hq
        · exact h
      rw [ih hnd.2 hc' (fun p hp => hcount p (List.mem_cons_of_mem _ hp))]

/-- C10: after ingestion the conversation lists partition the kept message
indices: every stored index is a valid dataset index, each conversation's
list is strictly increasing (encounter order), every valid index appears in
exactly one conversation list exactly once, and each kept message's index is
recorded under its own conversation id. -/
theorem C10_conversation_partition (rows : List Row) :
    (∀ p ∈ (processRows rows).convs, ∀ i ∈ p.2, i < (processRows rows).messages.length) ∧
    (∀ p ∈ (processRows rows).convs, p.2.Pairwise (· < ·)) ∧
    (∀ i, i < (processRows rows).messages.length →
      convIndexCount (processRows rows) i = 1) ∧
    (∀ i mi, (processRows rows).messages[i]? = some mi →
      ∃ p ∈ (processRows rows).convs, p.1 = mi.conversation_id ∧ i ∈ p.2) := by
  obtain ⟨hnd, hfind, hnone⟩ := processRows_inv rows
  have hkey : ∀ (i : Nat) (mi : Msg), (processRows rows).messages[i]? = some mi →
      ∃ lst, assocFind (processRows rows).convs mi.conversation_id = some lst := by
    intro i mi hmi
    have hi : i < (processRows rows).messages.length :=
      (List.getElem?_eq_some_iff.mp hmi).1
    cases hf : assocFind (processRows rows).convs mi.conversation_id with
    | some lst => exact ⟨lst, rfl⟩
    | none =>
      exfalso
      have hl := hnone _ hf
      have hmem : i ∈ convListOf (processRows rows).messages mi.conversation_id := by
        simp [convListOf, List.mem_filter, List.mem_range, hi, convAt, hmi]
      rw [hl] at hmem
      cases hmem
  refine ⟨?_, ?_, ?_, ?_⟩
  · intro p hp i hi
    have hf := mem_assocFind _ p.1 p.2 hnd hp
    rw [hfind p.1 p.2 hf] at hi
    simp only [convListOf, List.mem_filter, List.mem_range] at hi
    exact hi.1
  · intro p hp
    have hf := mem_assocFind _ p.1 p.2 hnd hp
    rw [hfind p.1 p.2 hf]
    exact (List.pairwise_lt_range _).filter _
  · intro i hi
    obtain ⟨mi, hmi⟩ : ∃ mi, (processRows rows).messages[i]? = some mi :=
      ⟨_, List.getElem?_eq_getElem hi⟩
    obtain ⟨lst, hf⟩ := hkey i mi hmi
    have hmemkeys : mi.conversation_id ∈ (processRows rows).convs.map Prod.fst :=
      List.mem_map.mpr ⟨(mi.conversation_id, lst), assocFind_mem _ _ _ hf, rfl⟩
    unfold convIndexCount
    apply sum_count_one _ mi.conversation_id _ hnd hmemkeys
    intro p hp
    have hfp := mem_assocFind _ p.1 p.2 hnd hp
    rw [hfind p.1 p.2 hfp]
    exact count_convListOf _ p.1 i hi mi hmi
  · intro i mi hmi
    have hi : i < (processRows rows).messages.length :=
      (List.getElem?_eq_some_iff.mp hmi).1
    obtain ⟨lst, hf⟩ := hkey i mi hmi
    refine ⟨(mi.conversation_id, lst), assocFind_mem _ _ _ hf, rfl, ?_⟩
    rw [hfind _ _ hf]
    simp [convListOf, List.mem_filter, List.mem_range, hi, convAt, hmi]

/-- C10 witness: the partition facts at a concrete two-row import. -/
theorem C10_conversation_partition_witness :
    convIndexCount (processRows [dupRow, flaggedOnlyRow]) 0 = 1 ∧
    convIndexCount (processRows [dupRow, flaggedOnlyRow]) 1 = 1 := by
  have h := C10_conversation_partition [dupRow, flaggedOnlyRow]
  exact ⟨h.2.2.1 0 (by decide), h.2.2.1 1 (by decide)⟩

end Snap
